import Mathlib

/-!
A shallow embedding of the stream-parsing and UI-state core of the AI-OCR
frontend (`static/js/main.js` and its panel-exclusive variant).  Text is
modelled as `List Char` (JS strings at the code-point level; the byte-level
`TextDecoder` with `stream: true` re-synchronises multi-byte sequences, so the
character level is the faithful abstraction for line splitting).  `JSON.parse`
is an external browser builtin, so the payload decoder is a parameter
`decode : List Char → Option JSVal`, `none` modelling a thrown parse error.
-/

namespace AIOCR

/-- Model of a JavaScript value as it can come out of `JSON.parse`, plus
`undef` for the `undefined` produced by missing-property access. -/
inductive JSVal : Type where
  | undefined : JSVal
  | null : JSVal
  | bool (b : Bool) : JSVal
  | num (n : Int) : JSVal
  | str (s : List Char) : JSVal
  | arr (elems : List JSVal) : JSVal
  | obj (fields : List (List Char × JSVal)) : JSVal

/-- JS property access `v.k`: field of an object, `undefined` otherwise. -/
def getField (v : JSVal) (k : List Char) : JSVal :=
  match v with
  | .obj fields =>
    match List.lookup k fields with
    | some w => w
    | none => .undefined
  | _ => .undefined

/-- JS truthiness. -/
def truthy : JSVal → Bool
  | .undefined => false
  | .null => false
  | .bool b => b
  | .num n => n != 0
  | .str s => s != []
  | .arr _ => true
  | .obj _ => true

/-- JS `a || b`. -/
def jsOr (a b : JSVal) : JSVal := if truthy a then a else b

/-- JS optional chaining `v?.k`. -/
def jsOptField (v : JSVal) (k : List Char) : JSVal :=
  match v with
  | .undefined => .undefined
  | .null => .undefined
  | _ => getField v k

/-- JS indexing `v[0]`. -/
def jsIndexZero (v : JSVal) : JSVal :=
  match v with
  | .arr elems => elems.headD .undefined
  | .obj _ => getField v ['0']
  | .str s =>
    match s with
    | [] => .undefined
    | c :: _ => .str [c]
  | _ => .undefined

/-- JS strict equality `v === s` against a string literal. -/
def jsStrEq (v : JSVal) (s : List Char) : Bool :=
  match v with
  | .str t => t = s
  | _ => false

mutual

/-- JS ToString coercion, as used by `+=` on a string accumulator. -/
def jsToString : JSVal → List Char
  | .undefined => "undefined".toList
  | .null => "null".toList
  | .bool b => if b then "true".toList else "false".toList
  | .num n => (toString n).toList
  | .str s => s
  | .arr elems => jsToStringArray elems
  | .obj _ => "[object Object]".toList

/-- `Array.prototype.toString` = `join(",")`, with `null`/`undefined`
elements rendered empty. -/
def jsToStringArray : List JSVal → List Char
  | [] => []
  | [.undefined] => []
  | [.null] => []
  | [v] => jsToString v
  | .undefined :: rest => ',' :: jsToStringArray rest
  | .null :: rest => ',' :: jsToStringArray rest
  | v :: rest => jsToString v ++ ',' :: jsToStringArray rest

end

/-- JS `String.prototype.trim` whitespace. -/
def isJsWhitespace (c : Char) : Bool :=
  c == ' ' || c == '\t' || c == '\n' || c == '\r' || c == '\x0b' || c == '\x0c'

/-- JS `s.trim()`. -/
def jsTrim (s : List Char) : List Char :=
  ((s.dropWhile isJsWhitespace).reverse.dropWhile isJsWhitespace).reverse

/-! ## The stream-reading loop of `toggleRecognize` -/

/-- The two text accumulators of the streaming loop: `fullText` (output) and
`reasoningText`. -/
structure StreamAcc where
  fullText : List Char
  reasoningText : List Char
deriving DecidableEq, Repr

/-- One decoded `data: ` payload, dispatched as in the panel-exclusive
variant: the `type === 'response.reasoning.delta'` branch first, else the
`choices`-shape branch (`json.choices && json.choices[0]?.delta`), appending
`delta.reasoning` to the reasoning text and `delta.content` to the output
text. -/
def processPayload (json : JSVal) (acc : StreamAcc) : StreamAcc :=
  if jsStrEq (getField json "type".toList) "response.reasoning.delta".toList then
    let reasoningDelta := jsOr (getField json "delta".toList) (.str [])
    if truthy reasoningDelta then
      { acc with reasoningText := acc.reasoningText ++ jsToString reasoningDelta }
    else acc
  else
    let choices := getField json "choices".toList
    if truthy choices && truthy (jsOptField (jsIndexZero choices) "delta".toList) then
      let delta := getField (jsIndexZero choices) "delta".toList
      let content := jsOr (getField delta "content".toList) (.str [])
      let reasoning := jsOr (getField delta "reasoning".toList) (.str [])
      let acc :=
        if truthy reasoning then
          { acc with reasoningText := acc.reasoningText ++ jsToString reasoning }
        else acc
      if truthy content then
        { acc with fullText := acc.fullText ++ jsToString content }
      else acc
    else acc

/-- The body of `for (const line of lines)`: trim, skip blank lines and the
`data: [DONE]` sentinel, and for `data: `-prefixed lines decode the payload
(`trimmed.slice(6)`), a decode failure skipping the line. -/
def processLine (decode : List Char → Option JSVal) (acc : StreamAcc)
    (line : List Char) : StreamAcc :=
  let trimmed := jsTrim line
  if trimmed = [] ∨ trimmed = "data: [DONE]".toList then acc
  else if ("data: ".toList).isPrefixOf trimmed then
    match decode (trimmed.drop 6) with
    | some json => processPayload json acc
    | none => acc
  else acc

/-- `buffer.split("\n")`: splitting on `'\n'`, never empty, with an empty
trailing segment for a trailing newline. -/
def splitLines : List Char → List (List Char)
  | [] => [[]]
  | c :: rest =>
    let s := splitLines rest
    if c = '\n' then [] :: s
    else (c :: s.headD []) :: s.tail

/-- State carried across chunks: the two accumulators plus the incomplete
trailing line kept in `buffer` (`buffer = lines.pop()`). -/
structure LoopState where
  acc : StreamAcc
  buffer : List Char
deriving DecidableEq, Repr

/-- One iteration of `while (true)` for one decoded chunk: append to the
buffer, split on newlines, keep the last (incomplete) segment as the new
buffer and process every other segment as a line. -/
def feedChunk (decode : List Char → Option JSVal) (st : LoopState)
    (chunk : List Char) : LoopState :=
  { acc := ((splitLines (st.buffer ++ chunk)).dropLast).foldl
      (processLine decode) st.acc,
    buffer := (splitLines (st.buffer ++ chunk)).getLastD [] }

/-- The whole reading loop on a chunk sequence, from empty accumulators and an
empty buffer.  The trailing buffer is dropped when `done` is reached, exactly
as in the source. -/
def runChunks (decode : List Char → Option JSVal)
    (chunks : List (List Char)) : StreamAcc :=
  (chunks.foldl (feedChunk decode) ⟨⟨[], []⟩, []⟩).acc

/-! ## Final-text post-processing (box markers) -/

/-- `BEGIN_MARKER` of the final-text post-processing step. -/
def BEGIN_MARKER : List Char := "<|begin_of_box|>".toList

/-- `END_MARKER` of the final-text post-processing step. -/
def END_MARKER : List Char := "<|end_of_box|>".toList

/-- JS `s.substring(a, b)`: clamps both indices into `[0, length]` and swaps
them when out of order. -/
def jsSubstring (s : List Char) (a b : Int) : List Char :=
  let n : Int := s.length
  let a2 := max 0 (min a n)
  let b2 := max 0 (min b n)
  let lo := min a2 b2
  let hi := max a2 b2
  (s.take hi.toNat).drop lo.toNat

/-- The post-stream flush: when the accumulated text starts with
`<|begin_of_box|>` and ends with `<|end_of_box|>`, take
`fullText.substring(BEGIN_MARKER.length, fullText.length - END_MARKER.length)`,
else leave the text unchanged. -/
def stripBoxMarkers (s : List Char) : List Char :=
  if BEGIN_MARKER.isPrefixOf s ∧ END_MARKER.isSuffixOf s then
    jsSubstring s BEGIN_MARKER.length ((s.length : Int) - END_MARKER.length)
  else s

/-! ## Run completion, history, and error handling -/

/-- One entry of `sessionHistory`: `{id: Date.now(), time: ..., text: fullText}`. -/
structure HistoryEntry where
  id : Int
  time : List Char
  text : List Char
deriving DecidableEq, Repr

/-- The UI state touched after the reading loop: the status indicator
(`innerText` and `className`), the two per-box status classes, the history
list, the control button, and the `isRecognizing` flag. -/
structure UiAfterStream where
  statusText : List Char
  statusClass : List Char
  reasoningStatusClass : List Char
  outputStatusClass : List Char
  history : List HistoryEntry
  btnText : List Char
  btnStopClass : Bool
  isRecognizing : Bool
deriving DecidableEq, Repr

/-- The `finally` clause: reset `isRecognizing` and revert the button to the
start action. -/
def finallyRun (s : UiAfterStream) : UiAfterStream :=
  { s with isRecognizing := false, btnText := "Start".toList, btnStopClass := false }

/-- The `if (fullText)` block after the loop: prepend (`unshift`) a history
entry, set the status to Done/success, and mark the box statuses completed;
an empty `fullText` leaves all of that untouched.  Always followed by the
`finally` clause. -/
def finishStream (fullText reasoningText : List Char) (reasoningEnabled : Bool)
    (nowId : Int) (nowTime : List Char) (s : UiAfterStream) : UiAfterStream :=
  let s2 :=
    if fullText ≠ [] then
      let s1 :=
        { s with history := ⟨nowId, nowTime, fullText⟩ :: s.history,
                 statusText := "Done".toList, statusClass := "success".toList }
      if reasoningEnabled ∧ reasoningText ≠ [] then
        { s1 with reasoningStatusClass := "box-status completed".toList,
                  outputStatusClass := "box-status completed".toList }
      else
        { s1 with outputStatusClass := "box-status completed".toList }
    else s
  finallyRun s2

/-- The error caught by the `catch` clause, as JS sees it: `err.name` and
`err.message`. -/
structure CaughtError where
  name : List Char
  message : List Char
deriving DecidableEq, Repr

/-- The `catch` clause: an `AbortError` gets `updateStatus("Stopped", 'error')`
and clears the box statuses; any other error gets
`updateStatus("Error: " + err.message, 'error')` and error box statuses.
Always followed by the `finally` clause. -/
def handleRunError (err : CaughtError) (s : UiAfterStream) : UiAfterStream :=
  let s1 :=
    if err.name = "AbortError".toList then
      { s with statusText := "Stopped".toList, statusClass := "error".toList,
               reasoningStatusClass := "box-status".toList,
               outputStatusClass := "box-status".toList }
    else
      { s with statusText := "Error: ".toList ++ err.message,
               statusClass := "error".toList,
               reasoningStatusClass := "box-status error".toList,
               outputStatusClass := "box-status error".toList }
  finallyRun s1

/-! ## Start validation -/

/-- An element of `currentImages`. -/
structure ImageItem where
  id : Int
  name : List Char
  base64 : List Char
deriving DecidableEq, Repr

/-- The state read and written by the entry of `toggleRecognize`. -/
structure IdleState where
  isRecognizing : Bool
  currentImages : List ImageItem
  statusText : List Char
  statusClass : List Char
  resultText : List Char
  reasoningText : List Char
  history : List HistoryEntry
deriving DecidableEq, Repr

/-- What the entry of `toggleRecognize` does besides mutating state. -/
inductive StartOutcome where
  | abortCurrent : StartOutcome
  | alertUser (msg : List Char) : StartOutcome
  | begun (images : List (List Char)) : StartOutcome
deriving DecidableEq, Repr

/-- The entry of `toggleRecognize`: a running recognition is aborted; with
zero staged images an alert is shown and nothing else happens; otherwise the
run starts (flag set, status Connecting, buffers cleared, request issued with
the staged images). -/
def toggleRecognizeEntry (s : IdleState) : IdleState × StartOutcome :=
  if s.isRecognizing then (s, .abortCurrent)
  else if s.currentImages.length = 0 then
    (s, .alertUser "Please add images.".toList)
  else
    ({ s with isRecognizing := true,
              statusText := "Connecting...".toList,
              statusClass := "connecting".toList,
              resultText := [], reasoningText := [] },
     .begun (s.currentImages.map (fun img => img.base64)))

/-! ## Panel (reasoning box / output box) state machine

Each box carries exactly one of the classes `expanded`/`collapsed` (every
mutation in the source removes one and adds the other), modelled as one
Boolean per box; `reasoningVisible` models `reasoningBox.style.display`
being `'flex'` rather than `'none'`. -/

/-- Panel state of the two boxes. -/
structure PanelState where
  reasoningExpanded : Bool
  outputExpanded : Bool
  reasoningVisible : Bool
deriving DecidableEq, Repr

/-- `hideReasoningContent()`: when the reasoning box is not collapsed,
collapse it and expand the output box; otherwise leave everything unchanged. -/
def hideReasoningContentPanel (s : PanelState) : PanelState :=
  if s.reasoningExpanded then
    { s with reasoningExpanded := false, outputExpanded := true }
  else s

/-- `showReasoningContent(content)`: for content that is truthy and has a
truthy trim, show the reasoning box, expand it and collapse the output box;
otherwise fall through to `hideReasoningContent()`. -/
def showReasoningContentPanel (content : List Char) (s : PanelState) : PanelState :=
  if content ≠ [] ∧ jsTrim content ≠ [] then
    { reasoningExpanded := true, outputExpanded := false, reasoningVisible := true }
  else
    hideReasoningContentPanel s

/-- `toggleBox(boxType)`: a collapsed target box is expanded while the other
box is collapsed, and an expanded target box is collapsed while the other box
is expanded. -/
def toggleBox (boxType : List Char) (s : PanelState) : PanelState :=
  let targetIsReasoning := boxType = "reasoning".toList
  let targetCollapsed :=
    if targetIsReasoning then !s.reasoningExpanded else !s.outputExpanded
  if targetCollapsed then
    if targetIsReasoning then
      { s with reasoningExpanded := true, outputExpanded := false }
    else
      { s with outputExpanded := true, reasoningExpanded := false }
  else
    if targetIsReasoning then
      { s with reasoningExpanded := false, outputExpanded := true }
    else
      { s with outputExpanded := false, reasoningExpanded := true }

/-- The delayed auto-switch body scheduled at stream end: only when the
reasoning box is visible, collapse it and expand the output box. -/
def autoSwitchPanels (s : PanelState) : PanelState :=
  if s.reasoningVisible then
    { s with reasoningExpanded := false, outputExpanded := true }
  else s

/-- The box setup at the start of a run, branching on `reasoningEnabled`:
either show the reasoning box expanded with the output box collapsed, or hide
the reasoning box collapsed with the output box expanded. -/
def startRunPanels (reasoningEnabled : Bool) (_s : PanelState) : PanelState :=
  if reasoningEnabled then
    { reasoningExpanded := true, outputExpanded := false, reasoningVisible := true }
  else
    { reasoningExpanded := false, outputExpanded := true, reasoningVisible := false }

/-- Every operation of the source that touches the panel state. -/
inductive PanelOp where
  | reasoningDelta (content : List Char) : PanelOp
  | toggle (boxType : List Char) : PanelOp
  | hideReasoning : PanelOp
  | autoSwitch : PanelOp
  | startRun (reasoningEnabled : Bool) : PanelOp
deriving DecidableEq, Repr

/-- Dispatch of one panel operation. -/
def panelStep (s : PanelState) (op : PanelOp) : PanelState :=
  match op with
  | .reasoningDelta content => showReasoningContentPanel content s
  | .toggle boxType => toggleBox boxType s
  | .hideReasoning => hideReasoningContentPanel s
  | .autoSwitch => autoSwitchPanels s
  | .startRun b => startRunPanels b s

/-- Exactly one of the two boxes is expanded. -/
def panelExclusive (s : PanelState) : Prop :=
  s.reasoningExpanded ≠ s.outputExpanded

instance (s : PanelState) : Decidable (panelExclusive s) := by
  unfold panelExclusive; infer_instance

/-! ## Chunk-boundary invariance of the reading loop -/

/-- Merging a leading segment into the first segment of a split. -/
def consolidate (x : List Char) : List (List Char) → List (List Char)
  | [] => [x]
  | y :: ys => (x ++ y) :: ys

/-- A concrete stand-in for `JSON.parse`, used as test input: it decodes the
single payload text `{"choices":[{"delta":{"content":"X"}}]}` and fails on
everything else. -/
def sampleDecode : List Char → Option JSVal := fun s =>
  if s = "\x7b\x22choices\x22:[\x7b\x22delta\x22:\x7b\x22content\x22:\x22X\x22\x7d\x7d]\x7d".toList then
    some (.obj [("choices".toList,
      .arr [.obj [("delta".toList, .obj [("content".toList, .str "X".toList)])]])])
  else none

/-- A concrete UI state during Processing, used as test input. -/
def sampleUi : UiAfterStream :=
  { statusText := "Processing...".toList, statusClass := "processing".toList,
    reasoningStatusClass := "box-status spinning".toList,
    outputStatusClass := "box-status".toList,
    history := [⟨1, "t1".toList, "A".toList⟩],
    btnText := "Stop".toList, btnStopClass := true, isRecognizing := true }

theorem splitLines_ne_nil (l : List Char) : splitLines l ≠ [] := by
  cases l with
  | nil => simp [splitLines]
  | cons c rest =>
    simp only [splitLines]
    split <;> simp

theorem consolidate_ne_nil (x : List Char) (l : List (List Char)) :
    consolidate x l ≠ [] := by
  cases l <;> simp [consolidate]

theorem splitLines_append (a b : List Char) :
    splitLines (a ++ b) =
      (splitLines a).dropLast ++
        consolidate ((splitLines a).getLastD []) (splitLines b) := by
  induction a with
  | nil =>
    rcases hb : splitLines b with _ | ⟨y, ys⟩
    · exact absurd hb (splitLines_ne_nil b)
    · simp [splitLines, consolidate, hb]
  | cons c a ih =>
    rcases ha : splitLines a with _ | ⟨z, zs⟩
    · exact absurd ha (splitLines_ne_nil a)
    · rw [ha] at ih
      by_cases hc : c = '\n'
      · subst hc
        show splitLines ('\n' :: (a ++ b)) = _
        rw [show splitLines ('\n' :: (a ++ b)) = [] :: splitLines (a ++ b) by
              simp [splitLines],
            show splitLines ('\n' :: a) = [] :: splitLines a by simp [splitLines],
            ha, ih]
        cases zs with
        | nil => simp [List.getLastD_cons]
        | cons w ws => simp [List.dropLast_cons₂, List.getLastD_cons]
      · show splitLines (c :: (a ++ b)) = _
        rw [show splitLines (c :: (a ++ b)) =
              (c :: (splitLines (a ++ b)).headD []) :: (splitLines (a ++ b)).tail by
              simp [splitLines, hc],
            show splitLines (c :: a) =
              (c :: (splitLines a).headD []) :: (splitLines a).tail by
              simp [splitLines, hc],
            ha, ih]
        cases zs with
        | nil =>
          rcases hb : splitLines b with _ | ⟨y, ys⟩
          · exact absurd hb (splitLines_ne_nil b)
          · simp [consolidate, List.getLastD_cons]
        | cons w ws =>
          rw [List.dropLast_cons₂, List.getLastD_cons]
          simp only [List.headD_cons, List.tail_cons, List.cons_append,
            List.dropLast_cons₂, List.getLastD_cons]

theorem splitLines_getLastD_no_newline (l : List Char) :
    '\n' ∉ (splitLines l).getLastD [] := by
  induction l with
  | nil => simp [splitLines]
  | cons c a ih =>
    rcases ha : splitLines a with _ | ⟨z, zs⟩
    · exact absurd ha (splitLines_ne_nil a)
    · rw [ha] at ih
      by_cases hc : c = '\n'
      · subst hc
        rw [show splitLines ('\n' :: a) = [] :: splitLines a by simp [splitLines],
            ha, List.getLastD_cons]
        cases zs with
        | nil =>
          rw [List.getLastD_cons] at ih ⊢
          simpa using ih
        | cons w ws =>
          rw [List.getLastD_cons] at ih ⊢
          exact ih
      · rw [show splitLines (c :: a) =
              (c :: (splitLines a).headD []) :: (splitLines a).tail by
              simp [splitLines, hc], ha]
        cases zs with
        | nil =>
          rw [List.getLastD_cons] at ih ⊢
          simp only [List.headD_cons, List.tail_cons, List.getLastD_nil] at ih ⊢
          intro hmem
          rcases List.mem_cons.mp hmem with h | h
          · exact hc h.symm
          · exact ih h
        | cons w ws =>
          rw [List.getLastD_cons] at ih ⊢
          simpa using ih

theorem splitLines_of_no_newline (l : List Char) (h : '\n' ∉ l) :
    splitLines l = [l] := by
  induction l with
  | nil => simp [splitLines]
  | cons c a ih =>
    have hc : c ≠ '\n' := fun hc => h (hc ▸ List.mem_cons_self c a)
    have ha : '\n' ∉ a := fun hmem => h (List.mem_cons_of_mem c hmem)
    rw [show splitLines (c :: a) =
          (c :: (splitLines a).headD []) :: (splitLines a).tail by
          simp [splitLines, hc], ih ha]
    simp

theorem splitLines_consolidate (x b : List Char) (h : '\n' ∉ x) :
    splitLines (x ++ b) = consolidate x (splitLines b) := by
  rw [splitLines_append, splitLines_of_no_newline x h]
  simp [List.getLastD_cons]

theorem getLastD_append_of_ne_nil (l₁ l₂ : List (List Char)) (h : l₂ ≠ []) :
    (l₁ ++ l₂).getLastD [] = l₂.getLastD [] := by
  rw [List.getLastD_eq_getLast?, List.getLastD_eq_getLast?,
      List.getLast?_append_of_ne_nil l₁ h]

theorem feedChunk_append (decode : List Char → Option JSVal) (st : LoopState)
    (c₁ c₂ : List Char) :
    feedChunk decode st (c₁ ++ c₂) = feedChunk decode (feedChunk decode st c₁) c₂ := by
  have hlast : '\n' ∉ (splitLines (st.buffer ++ c₁)).getLastD [] :=
    splitLines_getLastD_no_newline (st.buffer ++ c₁)
  have hsplit : splitLines ((splitLines (st.buffer ++ c₁)).getLastD [] ++ c₂) =
      consolidate ((splitLines (st.buffer ++ c₁)).getLastD []) (splitLines c₂) :=
    splitLines_consolidate _ c₂ hlast
  have h1 : splitLines (st.buffer ++ (c₁ ++ c₂)) =
      (splitLines (st.buffer ++ c₁)).dropLast ++
        consolidate ((splitLines (st.buffer ++ c₁)).getLastD []) (splitLines c₂) := by
    rw [← List.append_assoc, splitLines_append]
  have hne : consolidate ((splitLines (st.buffer ++ c₁)).getLastD [])
      (splitLines c₂) ≠ [] := consolidate_ne_nil _ _
  simp only [feedChunk, h1, hsplit]
  rw [List.dropLast_append_of_ne_nil _ hne, List.foldl_append,
      getLastD_append_of_ne_nil _ _ hne]

theorem foldl_feedChunk_flatten (decode : List Char → Option JSVal)
    (chunks : List (List Char)) (st : LoopState) (h : '\n' ∉ st.buffer) :
    chunks.foldl (feedChunk decode) st = feedChunk decode st chunks.flatten := by
  induction chunks generalizing st with
  | nil =>
    show st = feedChunk decode st []
    unfold feedChunk
    rw [List.append_nil, splitLines_of_no_newline st.buffer h]
    simp
  | cons c cs ih =>
    rw [List.foldl_cons, List.flatten_cons, feedChunk_append decode st c cs.flatten]
    exact ih (feedChunk decode st c) (splitLines_getLastD_no_newline _)

/-- C1 (chunk-boundary invariance): for any payload decoder and any two ways
of splitting the same character stream into chunks, the stream-reading loop
(which buffers the incomplete trailing line across chunks) produces the same
final accumulated output text and the same final reasoning text. -/
theorem chunk_boundary_invariance (decode : List Char → Option JSVal)
    (chunks₁ chunks₂ : List (List Char)) (h : chunks₁.flatten = chunks₂.flatten) :
    runChunks decode chunks₁ = runChunks decode chunks₂ := by
  unfold runChunks
  rw [foldl_feedChunk_flatten decode chunks₁ _ (by simp),
      foldl_feedChunk_flatten decode chunks₂ _ (by simp), h]

theorem chunk_boundary_invariance_witness :
    runChunks sampleDecode
        ["data: \x7b\x22choices\x22:[\x7b\x22delta\x22:\x7b\x22cont".toList,
         "ent\x22:\x22X\x22\x7d\x7d]\x7d\ndata: [DONE]\n".toList]
      = runChunks sampleDecode
        ["data: \x7b\x22choices\x22:[\x7b\x22delta\x22:\x7b\x22content\x22:\x22X\x22\x7d\x7d]\x7d\ndata: [DONE]\n".toList] :=
  chunk_boundary_invariance sampleDecode _ _ (by decide)

/-! ## Box-marker stripping (final-text flush) -/

theorem begin_marker_length : BEGIN_MARKER.length = 16 := by decide

theorem end_marker_length : END_MARKER.length = 14 := by decide

/-- No suffix of length 1..14 of the begin marker is a prefix of the end
marker, so the two marker occurrences cannot overlap. -/
theorem markers_no_overlap :
    ∀ j : Fin 16, 2 ≤ (j : ℕ) →
      BEGIN_MARKER.drop (j : ℕ) ≠ END_MARKER.take (16 - (j : ℕ)) := by decide

theorem end_marker_suffix_of_append (t : List Char)
    (h : END_MARKER <:+ BEGIN_MARKER ++ t) : END_MARKER <:+ t := by
  obtain ⟨u, hu⟩ := h
  have h0 := congrArg List.length hu
  simp only [List.length_append, begin_marker_length, end_marker_length] at h0
  by_cases h14 : 14 ≤ t.length
  · have h16 : 16 ≤ u.length := by omega
    have ht : t = u.drop 16 ++ END_MARKER := by
      have h1 : (BEGIN_MARKER ++ t).drop 16 = t := List.drop_left' begin_marker_length
      rw [← h1, ← hu, List.drop_append_of_le_length h16]
    exact ⟨u.drop 16, ht.symm⟩
  · exfalso
    have hu2 : 2 ≤ u.length := by omega
    have hE : END_MARKER = BEGIN_MARKER.drop u.length ++ t := by
      have h1 : (u ++ END_MARKER).drop u.length = END_MARKER :=
        List.drop_left u END_MARKER
      rw [← h1, hu, List.drop_append_of_le_length (by rw [begin_marker_length]; omega)]
    have htake : END_MARKER.take (16 - u.length) = BEGIN_MARKER.drop u.length := by
      rw [hE]
      exact List.take_left' (by rw [List.length_drop, begin_marker_length])
    exact markers_no_overlap ⟨u.length, by omega⟩ hu2 htake.symm

theorem take_drop_mid (B m E s : List Char) (hs : s = (B ++ m) ++ E)
    (hB : B.length = 16) (a b : ℕ) (ha : a = 16) (hb : b = 16 + m.length) :
    (s.take b).drop a = m := by
  subst hs ha hb
  rw [List.take_left' (by rw [List.length_append, hB]), List.drop_left' hB]

theorem jsSubstring_strip (m : List Char) :
    jsSubstring (BEGIN_MARKER ++ (m ++ END_MARKER)) (BEGIN_MARKER.length : Int)
      (((BEGIN_MARKER ++ (m ++ END_MARKER)).length : Int) - (END_MARKER.length : Int))
      = m := by
  have hn : (BEGIN_MARKER ++ (m ++ END_MARKER)).length = 30 + m.length := by
    simp only [List.length_append, begin_marker_length, end_marker_length]
    omega
  simp only [jsSubstring]
  refine take_drop_mid BEGIN_MARKER m END_MARKER _
      (List.append_assoc BEGIN_MARKER m END_MARKER).symm begin_marker_length _ _ ?_ ?_
  · simp only [hn, begin_marker_length, end_marker_length]
    push_cast
    omega
  · simp only [hn, begin_marker_length, end_marker_length]
    push_cast
    omega

/-- C7 (box-marker stripping): after the stream ends, a text that begins with
`<|begin_of_box|>` and ends with `<|end_of_box|>` has exactly those two
literal substrings stripped from its two ends; any other text is delivered
unchanged; in particular `<|begin_of_box|>HELLO<|end_of_box|>` delivers
`HELLO` and `HELLO` passes through unchanged. -/
theorem box_marker_stripping :
    (∀ s : List Char, BEGIN_MARKER.isPrefixOf s → END_MARKER.isSuffixOf s →
        s = BEGIN_MARKER ++ stripBoxMarkers s ++ END_MARKER)
  ∧ (∀ s : List Char, ¬ (BEGIN_MARKER.isPrefixOf s ∧ END_MARKER.isSuffixOf s) →
        stripBoxMarkers s = s)
  ∧ stripBoxMarkers "<|begin_of_box|>HELLO<|end_of_box|>".toList = "HELLO".toList
  ∧ stripBoxMarkers "HELLO".toList = "HELLO".toList := by
  refine ⟨?_, ?_, by decide, by decide⟩
  · intro s hp hs
    obtain ⟨t, ht⟩ := List.isPrefixOf_iff_prefix.mp hp
    obtain ⟨m, hm⟩ :=
      end_marker_suffix_of_append t (ht ▸ List.isSuffixOf_iff_suffix.mp hs)
    have hst : s = BEGIN_MARKER ++ (m ++ END_MARKER) := by rw [← ht, ← hm]
    have hstrip : stripBoxMarkers s = m := by
      rw [stripBoxMarkers, if_pos ⟨hp, hs⟩, hst, jsSubstring_strip]
    rw [hstrip, hst, List.append_assoc]
  · intro s h
    rw [stripBoxMarkers, if_neg h]

theorem box_marker_stripping_witness :
    "<|begin_of_box|>A<|end_of_box|>".toList
      = BEGIN_MARKER ++ stripBoxMarkers "<|begin_of_box|>A<|end_of_box|>".toList
          ++ END_MARKER :=
  box_marker_stripping.1 _ (by decide) (by decide)

/-! ## Panel exclusivity -/

theorem panelStep_preserves_exclusive (s : PanelState) (op : PanelOp)
    (h : panelExclusive s) : panelExclusive (panelStep s op) := by
  cases op with
  | reasoningDelta content =>
    simp only [panelStep, showReasoningContentPanel, hideReasoningContentPanel]
    split
    · simp [panelExclusive]
    · split
      · simp [panelExclusive]
      · exact h
  | toggle boxType =>
    simp only [panelStep, toggleBox]
    split <;> split <;> simp [panelExclusive]
  | hideReasoning =>
    simp only [panelStep, hideReasoningContentPanel]
    split
    · simp [panelExclusive]
    · exact h
  | autoSwitch =>
    simp only [panelStep, autoSwitchPanels]
    split
    · simp [panelExclusive]
    · exact h
  | startRun b =>
    cases b <;> simp [panelStep, startRunPanels, panelExclusive]

theorem startRun_exclusive (s : PanelState) (b : Bool) :
    panelExclusive (panelStep s (.startRun b)) := by
  cases b <;> simp [panelStep, startRunPanels, panelExclusive]

theorem foldl_panelStep_exclusive (ops : List PanelOp) (s : PanelState)
    (h : panelExclusive s) : panelExclusive (ops.foldl panelStep s) := by
  induction ops generalizing s with
  | nil => exact h
  | cons op ops ih => exact ih _ (panelStep_preserves_exclusive s op h)

/-- C2 (panel exclusivity invariant): every operation that touches panel state
preserves mutual exclusivity of the expanded reasoning/output boxes; the box
setup at run start establishes it, so it holds at every instant of a run (in
particular after the first reasoning delta); and a reasoning delta with
non-blank content itself forces the exclusive state with the reasoning box
expanded and the output box collapsed. -/
theorem panel_exclusivity_invariant :
    (∀ (s : PanelState) (op : PanelOp),
        panelExclusive s → panelExclusive (panelStep s op))
  ∧ (∀ (s : PanelState) (b : Bool) (ops : List PanelOp),
        panelExclusive (List.foldl panelStep (panelStep s (.startRun b)) ops))
  ∧ (∀ (s : PanelState) (content : List Char), content ≠ [] → jsTrim content ≠ [] →
        panelStep s (.reasoningDelta content) =
          { reasoningExpanded := true, outputExpanded := false,
            reasoningVisible := true }) := by
  refine ⟨panelStep_preserves_exclusive, ?_, ?_⟩
  · intro s b ops
    exact foldl_panelStep_exclusive ops _ (startRun_exclusive s b)
  · intro s content h1 h2
    simp [panelStep, showReasoningContentPanel, h1, h2]

theorem panel_exclusivity_invariant_witness :
    panelExclusive (panelStep ⟨true, false, true⟩ (.toggle "output".toList))
  ∧ panelStep ⟨false, true, false⟩ (.reasoningDelta "thinking".toList)
      = ⟨true, false, true⟩ :=
  ⟨panel_exclusivity_invariant.1 _ _ (by decide),
   panel_exclusivity_invariant.2.2 _ _ (by decide) (by decide)⟩

/-! ## Dual-schema dispatch -/

/-- C3 (dual-schema dispatch): a decoded payload is dispatched type-tag first
— a `type: "response.reasoning.delta"` payload appends its `delta` to the
reasoning text (whatever other fields it carries, `choices` included);
otherwise a choices-shape payload appends `delta.reasoning` to the reasoning
text and `delta.content` to the output text, so a reasoning fragment with
empty content is still appended; and a prefixed line whose payload decodes is
processed exactly as that payload. -/
theorem dual_schema_dispatch :
    (∀ (acc : StreamAcc) (d : List Char) (extra : List (List Char × JSVal)),
        d ≠ [] →
        processPayload (.obj (("type".toList, .str "response.reasoning.delta".toList)
            :: ("delta".toList, .str d) :: extra)) acc
          = ⟨acc.fullText, acc.reasoningText ++ d⟩)
  ∧ (∀ (acc : StreamAcc) (r c : List Char),
        processPayload (.obj [("choices".toList, .arr [.obj [("delta".toList,
            .obj [("reasoning".toList, .str r), ("content".toList, .str c)])]])]) acc
          = ⟨acc.fullText ++ c, acc.reasoningText ++ r⟩)
  ∧ (∀ (decode : List Char → Option JSVal) (acc : StreamAcc) (line : List Char)
        (json : JSVal),
        jsTrim line ≠ [] → jsTrim line ≠ "data: [DONE]".toList →
        ("data: ".toList).isPrefixOf (jsTrim line) →
        decode ((jsTrim line).drop 6) = some json →
        processLine decode acc line = processPayload json acc) := by
  refine ⟨?_, ?_, ?_⟩
  · intro acc d extra hd
    simp [processPayload, getField, jsStrEq, jsOr, truthy, jsToString,
      List.lookup, hd]
  · intro acc r c
    rcases acc with ⟨f, g⟩
    by_cases hr : r = [] <;> by_cases hc : c = [] <;>
      simp [processPayload, getField, jsStrEq, jsOr, truthy, jsToString,
        jsOptField, jsIndexZero, List.lookup, hr, hc]
  · intro decode acc line json h1 h2 h3 h4
    simp only [processLine]
    rw [if_neg (not_or.mpr ⟨h1, h2⟩), if_pos h3, h4]

theorem dual_schema_dispatch_witness :
    processPayload (.obj [("type".toList, .str "response.reasoning.delta".toList),
        ("delta".toList, .str "R".toList)]) ⟨[], []⟩
      = ⟨[], "R".toList⟩ :=
  dual_schema_dispatch.1 ⟨[], []⟩ "R".toList [] (by decide)

/-! ## Terminator sentinel and blank lines -/

/-- C4 counterexample: a valid `data: ` line arriving after a
`data: [DONE]` sentinel line still changes the accumulated text, so the
sentinel does not stop processing of later lines. -/
theorem terminator_sentinel_counterexample :
    ["data: [DONE]".toList,
     "data: \x7b\x22choices\x22:[\x7b\x22delta\x22:\x7b\x22content\x22:\x22X\x22\x7d\x7d]\x7d".toList].foldl
        (processLine sampleDecode) ⟨[], []⟩
      ≠ ["data: [DONE]".toList].foldl (processLine sampleDecode) ⟨[], []⟩ := by
  decide

/-- C4 (amended): a blank line or a `data: [DONE]` sentinel line contributes
nothing to the accumulated text; however the sentinel is merely skipped like
a blank line — the loop continues and later lines are processed exactly as if
the sentinel line were absent. -/
theorem terminator_sentinel_skipped :
    (∀ (decode : List Char → Option JSVal) (acc : StreamAcc) (line : List Char),
        jsTrim line = [] ∨ jsTrim line = "data: [DONE]".toList →
        processLine decode acc line = acc)
  ∧ (∀ (decode : List Char → Option JSVal) (acc : StreamAcc) (line : List Char)
        (rest : List (List Char)),
        jsTrim line = [] ∨ jsTrim line = "data: [DONE]".toList →
        (line :: rest).foldl (processLine decode) acc
          = rest.foldl (processLine decode) acc) := by
  have h1 : ∀ (decode : List Char → Option JSVal) (acc : StreamAcc)
      (line : List Char),
      jsTrim line = [] ∨ jsTrim line = "data: [DONE]".toList →
      processLine decode acc line = acc := by
    intro decode acc line h
    simp only [processLine]
    rw [if_pos h]
  exact ⟨h1, fun decode acc line rest h => by
    rw [List.foldl_cons, h1 decode acc line h]⟩

theorem terminator_sentinel_skipped_witness :
    processLine sampleDecode ⟨"abc".toList, []⟩ "data: [DONE]".toList
      = ⟨"abc".toList, []⟩ :=
  terminator_sentinel_skipped.1 sampleDecode _ _ (by decide)

/-! ## Per-line parse-error recovery -/

/-- C8 (per-line parse-error recovery): a prefixed line whose payload fails
to decode is skipped silently — the accumulators are unchanged, and the lines
after it are processed exactly as if the bad line were absent. -/
theorem parse_error_recovery :
    (∀ (decode : List Char → Option JSVal) (acc : StreamAcc) (line : List Char),
        ("data: ".toList).isPrefixOf (jsTrim line) →
        decode ((jsTrim line).drop 6) = none →
        processLine decode acc line = acc)
  ∧ (∀ (decode : List Char → Option JSVal) (acc : StreamAcc) (line : List Char)
        (rest : List (List Char)),
        ("data: ".toList).isPrefixOf (jsTrim line) →
        decode ((jsTrim line).drop 6) = none →
        (line :: rest).foldl (processLine decode) acc
          = rest.foldl (processLine decode) acc) := by
  have h1 : ∀ (decode : List Char → Option JSVal) (acc : StreamAcc)
      (line : List Char),
      ("data: ".toList).isPrefixOf (jsTrim line) →
      decode ((jsTrim line).drop 6) = none →
      processLine decode acc line = acc := by
    intro decode acc line hp hd
    simp only [processLine, hd]
    split <;> rfl
  exact ⟨h1, fun decode acc line rest hp hd => by
    rw [List.foldl_cons, h1 decode acc line hp hd]⟩

theorem parse_error_recovery_witness :
    processLine sampleDecode ⟨"abc".toList, "r".toList⟩
        "data: \x7bnot json".toList
      = ⟨"abc".toList, "r".toList⟩ :=
  parse_error_recovery.1 sampleDecode _ _ (by decide) (by rfl)

/-! ## History on run completion -/

/-- C5 counterexample: completing a run with text `T` over an existing
history `[A]` yields `[T-entry, A]` — the new entry is put at the front
(`unshift`), not appended at the end, and `A` moves from position 0 to
position 1. -/
theorem history_append_counterexample :
    (finishStream "T".toList [] false 2 "t2".toList sampleUi).history
        = [⟨2, "t2".toList, "T".toList⟩, ⟨1, "t1".toList, "A".toList⟩]
  ∧ (finishStream "T".toList [] false 2 "t2".toList sampleUi).history
        ≠ sampleUi.history ++ [⟨2, "t2".toList, "T".toList⟩] := by
  decide

/-- C5 (amended): whenever a run completes with non-empty final text, exactly
one ExtractionResult holding that text is prepended to the front of the
session-local history list; every result already in the list is unchanged and
moves one position later, preserving relative order. -/
theorem history_prepend (fullText reasoningText : List Char)
    (reasoningEnabled : Bool) (nowId : Int) (nowTime : List Char)
    (s : UiAfterStream) (h : fullText ≠ []) :
    (finishStream fullText reasoningText reasoningEnabled nowId nowTime s).history
      = ⟨nowId, nowTime, fullText⟩ :: s.history := by
  simp only [finishStream, finallyRun, if_pos h]
  split <;> rfl

theorem history_prepend_witness :
    (finishStream "T".toList [] false 2 "t2".toList sampleUi).history
      = ⟨2, "t2".toList, "T".toList⟩ :: sampleUi.history :=
  history_prepend "T".toList [] false 2 "t2".toList sampleUi (by decide)

/-! ## Cancellation outcome -/

/-- C6 counterexample: after an `AbortError`, the status indicator carries
the CSS class `error` — the very class the Error state uses — rather than a
neutral one. -/
theorem cancellation_counterexample :
    (handleRunError ⟨"AbortError".toList, "The user aborted a request.".toList⟩
        sampleUi).statusClass = "error".toList
  ∧ (handleRunError ⟨"AbortError".toList, "The user aborted a request.".toList⟩
        sampleUi).statusClass
      = (handleRunError ⟨"TypeError".toList, "Failed to fetch".toList⟩
          sampleUi).statusClass := by
  decide

/-- C6 (amended): cancelling a run surfaces the status text `Stopped` with no
`Error: ` message whatever the internal exception message was, clears the
per-box statuses to neutral, and terminates the run (flag cleared, button
reverted) — but the status indicator's CSS class is set to `error`, the same
class the Error state uses, not a neutral one. -/
theorem cancellation_stopped (err : CaughtError) (s : UiAfterStream)
    (h : err.name = "AbortError".toList) :
    (handleRunError err s).statusText = "Stopped".toList
  ∧ ¬ (("Error: ".toList).isPrefixOf (handleRunError err s).statusText = true)
  ∧ (handleRunError err s).reasoningStatusClass = "box-status".toList
  ∧ (handleRunError err s).outputStatusClass = "box-status".toList
  ∧ (handleRunError err s).isRecognizing = false
  ∧ (handleRunError err s).btnText = "Start".toList
  ∧ (handleRunError err s).statusClass = "error".toList := by
  have hpre : ("Error: ".toList).isPrefixOf ("Stopped".toList) = false := by decide
  simp [handleRunError, finallyRun, h, hpre]

theorem cancellation_stopped_witness :
    (handleRunError ⟨"AbortError".toList, "network failure".toList⟩
        sampleUi).statusText = "Stopped".toList :=
  (cancellation_stopped ⟨"AbortError".toList, "network failure".toList⟩
    sampleUi (by decide)).1

/-! ## Zero-image validation -/

/-- C9 (zero-image validation): invoking the start action while not
recognizing and with zero staged images surfaces the blocking alert and
changes nothing — the state (status, buffers, images, history, flag) is
returned exactly as it was, and no request is issued. -/
theorem zero_image_validation (s : IdleState) (h1 : s.isRecognizing = false)
    (h2 : s.currentImages = []) :
    toggleRecognizeEntry s = (s, .alertUser "Please add images.".toList) := by
  simp [toggleRecognizeEntry, h1, h2]

theorem zero_image_validation_witness :
    toggleRecognizeEntry ⟨false, [], [], [], [], [], []⟩
      = (⟨false, [], [], [], [], [], []⟩, .alertUser "Please add images.".toList) :=
  zero_image_validation ⟨false, [], [], [], [], [], []⟩ rfl rfl

/-! ## Empty-result stream end -/

/-- C10 (empty-result stream end): when the stream ends with the accumulated
output text still empty, no history entry is created and the status indicator
is left untouched (still showing the Processing status, never Done), while
the run nevertheless terminates: the flag is cleared and the control button
reverts to the start action. -/
theorem empty_result_stream_end (fullText reasoningText : List Char)
    (reasoningEnabled : Bool) (nowId : Int) (nowTime : List Char)
    (s : UiAfterStream) (h : fullText = [])
    (hstatus : s.statusText = "Processing...".toList) :
    (finishStream fullText reasoningText reasoningEnabled nowId nowTime s).history
        = s.history
  ∧ (finishStream fullText reasoningText reasoningEnabled nowId nowTime
        s).statusText = "Processing...".toList
  ∧ (finishStream fullText reasoningText reasoningEnabled nowId nowTime
        s).statusText ≠ "Done".toList
  ∧ (finishStream fullText reasoningText reasoningEnabled nowId nowTime
        s).statusClass = s.statusClass
  ∧ (finishStream fullText reasoningText reasoningEnabled nowId nowTime
        s).isRecognizing = false
  ∧ (finishStream fullText reasoningText reasoningEnabled nowId nowTime
        s).btnText = "Start".toList
  ∧ (finishStream fullText reasoningText reasoningEnabled nowId nowTime
        s).btnStopClass = false := by
  subst h
  have hne : "Processing...".toList ≠ "Done".toList := by decide
  simp [finishStream, finallyRun, hstatus, hne]

theorem empty_result_stream_end_witness :
    (finishStream [] "r".toList true 3 "t3".toList sampleUi).history
        = sampleUi.history
  ∧ (finishStream [] "r".toList true 3 "t3".toList sampleUi).statusText
        = "Processing...".toList :=
  ⟨(empty_result_stream_end [] "r".toList true 3 "t3".toList sampleUi rfl
      (by decide)).1,
   (empty_result_stream_end [] "r".toList true 3 "t3".toList sampleUi rfl
      (by decide)).2.1⟩

end AIOCR
